import Mathlib

set_option linter.unusedVariables false

/-!
Verification of the stream-to-message framing layer and HTTP pipeline of the
Websocket_httpServer repository (src/httpServer.ts and src/server.ts).

Bytes are modelled as natural numbers, JS Buffers as lists of bytes, and the
mutable state of the program as explicit state passing.  Fallible code
(functions that may throw) returns Except.
-/

namespace WebSrv

/-- Byte sequence of a string under the latin1 encoding used by the source
(all strings involved are ASCII). -/
def latin1 (s : String) : List Nat :=
  s.data.map Char.toNat

/-! ### HTTPError (src/httpServer.ts, class HTTPError)

The constructor sets the fields `name`, `message` (via the Error superclass)
and `statusCode`.  No other own property is defined by the class. -/

structure HTTPError where
  name : String
  message : String
  statusCode : Nat
deriving DecidableEq, Repr

/-- The constructor `new HTTPError(statusCode, message)`. -/
def mkHTTPError (statusCode : Nat) (message : String) : HTTPError :=
  { name := "HTTPError", message := message, statusCode := statusCode }

/-- A JavaScript property value appearing on an HTTPError object. -/
inductive JSProp where
  | str (s : String)
  | num (n : Nat)
deriving DecidableEq, Repr

/-- Property access `e.<k>` on an HTTPError instance: the class defines
exactly the properties `name`, `message` and `statusCode`; accessing any
other property yields the JS value undefined, modelled as `none`. -/
def errGetProp (e : HTTPError) (k : String) : Option JSProp :=
  if k = "name" then some (.str e.name)
  else if k = "message" then some (.str e.message)
  else if k = "statusCode" then some (.num e.statusCode)
  else none

/-- The `code` field of the best-effort error response built in the catch
block of `newConn` (src/httpServer.ts line 183): the source reads
`exc.code`, a property access on the caught HTTPError. -/
def newConnErrorResponseCode (exc : HTTPError) : Option JSProp :=
  errGetProp exc "code"

/-! ### fieldGet (src/httpServer.ts lines 268-270)

The source reads, in full:
  function fieldGet(headers: Buffer[], key: string): null|Buffer\x7b
      return null;
  \x7d
-/

/-- Header field lookup as implemented by the source: a stub that always
returns null. -/
def fieldGet (headers : List (List Nat)) (key : String) : Option (List Nat) :=
  none

/-- ASCII lower-casing of one byte. -/
def lowerByte (c : Nat) : Nat :=
  if 65 ≤ c ∧ c ≤ 90 then c + 32 else c

/-- Name part of a raw header line: the bytes before the first colon
(byte 58). -/
def headerName (h : List Nat) : List Nat :=
  h.takeWhile (fun c => c ≠ 58)

/-- Whether a raw header line has the given key as its name, compared
case-insensitively. -/
def headerNameMatches (h : List Nat) (key : String) : Bool :=
  (headerName h).map lowerByte == (latin1 key).map lowerByte

/-- Modelled from the spec: the field-lookup operation the spec describes
(first header field whose name matches the key case-insensitively, or none);
the source body of `fieldGet` does not implement this, so the spec-side
behaviour is stated here for comparison. -/
def fieldGetSpec (headers : List (List Nat)) (key : String) : Option (List Nat) :=
  headers.find? (fun h => headerNameMatches h key)

/-! ### readerFromMemory (src/httpServer.ts lines 329-342)

The reader closes over a `done` flag; its state is the pair of the
captured data and that flag. -/

structure MemReader where
  data : List Nat
  done : Bool
deriving DecidableEq, Repr

/-- `readerFromMemory(data)`: length is `data.length`, `done` starts false. -/
def readerFromMemory (d : List Nat) : MemReader :=
  { data := d, done := false }

/-- The declared length of an in-memory reader. -/
def memLength (r : MemReader) : Nat :=
  r.data.length

/-- One pull on an in-memory reader: if `done`, an empty buffer; otherwise
the whole data, setting `done`. -/
def memRead (r : MemReader) : List Nat × MemReader :=
  if r.done then ([], r) else (r.data, { r with done := true })

/-! ### writeHTTPResp (src/httpServer.ts lines 345-362), body from memory

The source begins with `if(resp.body.length)\x7b throw new Error("TODO:
chunked encoding"); \x7d` — a JS truthiness test, taken whenever the body
length is non-zero.  It then pushes the single-quoted (hence literal, not
template) string onto the headers, and finally pulls the body reader until
an empty chunk, writing each chunk.  The header serialisation function
`encodeHTTPResp` it calls is absent from the source; the model records the
observable data instead: the final header-line list and the body chunks
written. -/

/-- Chunks written by the body loop of `writeHTTPResp` when the body is an
in-memory reader over `d`: the first pull returns `d` and the second pull
returns empty, so a non-empty `d` is written as one chunk and an empty `d`
is never written. -/
def bodyChunksWritten (d : List Nat) : List (List Nat) :=
  if d.length = 0 then [] else [d]

/-- `writeHTTPResp` on a response whose body is `readerFromMemory d`:
either the thrown error message, or the header lines after the
Content-Length push together with the body chunks written. -/
def writeHTTPRespMem (headers : List String) (d : List Nat) :
    Except String (List String × List (List Nat)) :=
  if d.length ≠ 0 then
    Except.error "TODO: chunked encoding"
  else
    Except.ok (headers ++ ["Content-Length: $\x7bresp.body.length\x7d"],
               bodyChunksWritten d)

/-! ### DynBuf (src/httpServer.ts lines 19-23, 116-139)

A JS Buffer is a fixed-capacity byte array; a DynBuf is such an array
together with a logical length.  `bufWrite` models `source.copy(target,
targetStart, 0)`: it overwrites the target in place starting at the given
position, truncating at the target capacity and never changing the target
length. -/

structure DynBuf where
  data : List Nat
  length : Nat
deriving DecidableEq, Repr

/-- `Buffer.alloc(n)`: n zero bytes. -/
def allocList (n : Nat) : List Nat :=
  List.replicate n 0

/-- Overwrite `arr` in place at position `pos` with the bytes of `d`,
clamped to the capacity of `arr` (the semantics of `d.copy(arr, pos, 0)`). -/
def bufWrite (arr : List Nat) (pos : Nat) (d : List Nat) : List Nat :=
  arr.take pos ++ d.take (arr.length - pos) ++ arr.drop (pos + d.length)

/-- The doubling loop of `bufPush`: `while (cap < newLen) cap *= 2`.
Written with explicit fuel so that it is structurally recursive; `newLen`
steps of fuel always suffice for a positive starting capacity (and every
call site starts from `max cap 32 ≥ 32`), because after k doublings the
capacity is at least 2^k, and 2^newLen ≥ newLen. -/
def growCapFuel : Nat → Nat → Nat → Nat
  | 0, _, cap => cap
  | fuel + 1, newLen, cap =>
    if cap < newLen then growCapFuel fuel newLen (cap * 2) else cap

/-- Capacity after the doubling loop of `bufPush`. -/
def growCap (newLen cap : Nat) : Nat :=
  growCapFuel newLen newLen cap

/-- `bufPush(buf, data)` (src/httpServer.ts lines 116-130): grow the
capacity by doubling whenever the appended data is non-empty, copy the old
backing array to the front of the grown one, then copy the appended data at
offset `buf.length` and set the new length. -/
def bufPush (buf : DynBuf) (d : List Nat) : DynBuf :=
  let newLen := buf.length + d.length
  let buf1 :=
    if buf.length < newLen then
      { buf with
        data := bufWrite (allocList (growCap newLen (max buf.data.length 32))) 0 buf.data }
    else buf
  { data := bufWrite buf1.data buf.length d, length := newLen }

/-- `bufPop(buf, len)` (src/httpServer.ts lines 132-139):
`buf.data.copyWithin(0, len, buf.length)` moves the bytes in positions
[len, buf.length) to the front of the backing array, then the length drops
by `len`. -/
def bufPop (buf : DynBuf) (len : Nat) : DynBuf :=
  { data := bufWrite buf.data 0 ((buf.data.drop len).take (buf.length - len)),
    length := buf.length - len }

/-- The unread content of a DynBuf: the first `length` bytes of the backing
array. -/
def DynBuf.content (buf : DynBuf) : List Nat :=
  buf.data.take buf.length

/-- Well-formedness of a DynBuf: the logical length never exceeds the
backing capacity.  It holds for the empty buffer each connection starts
with and is preserved by every operation. -/
def DynBuf.wf (buf : DynBuf) : Prop :=
  buf.length ≤ buf.data.length

/-- The per-connection initial buffer `\x7bdata: Buffer.alloc(0), length: 0\x7d`. -/
def emptyDynBuf : DynBuf :=
  { data := [], length := 0 }

/-! ### Byte-sequence search (Buffer.indexOf) -/

/-- Whether `pat` occurs at the head of the second list. -/
def startsWithB : List Nat → List Nat → Bool
  | [], _ => true
  | _ :: _, [] => false
  | p :: ps, a :: as => p == a && startsWithB ps as

/-- `hay.indexOf(pat)` for a non-empty pattern: index of the first full
occurrence, or none. -/
def indexOfSeq (pat : List Nat) : List Nat → Option Nat
  | [] => none
  | a :: rest =>
    if startsWithB pat (a :: rest) then some 0
    else (indexOfSeq pat rest).map (· + 1)

/-- Whether a byte sequence contains an occurrence of `pat`. -/
def hasSeq (pat hay : List Nat) : Bool :=
  (indexOfSeq pat hay).isSome

/-- The bytes of the HTTP header terminator CRLFCRLF. -/
def CRLFCRLF : List Nat :=
  [13, 10, 13, 10]

/-! ### HTTP message framer (src/httpServer.ts lines 196-213) -/

/-- A parsed HTTP request header (src/httpServer.ts type HTTPReq). -/
structure HTTPReq where
  method : String
  uri : List Nat
  version : String
  headers : List (List Nat)
deriving DecidableEq, Repr

/-- `kMaxHeaderLen = 1024 * 8`. -/
def kMaxHeaderLen : Nat := 1024 * 8

/-- `cutMessage(buf)` for the HTTP protocol: look for the first CRLFCRLF in
the first `buf.length` bytes; if absent, throw 413 when the buffered length
has reached `kMaxHeaderLen` and signal need-more-data (none) otherwise; if
found, parse the bytes through the delimiter and pop them from the buffer.
`parseHTTPReq` and its helpers are absent from the source (only this call
site exists), so the framer is parameterised over the parse function; the
claims settled about the framer do not depend on it. -/
def cutMessageHTTP (parse : List Nat → Except HTTPError HTTPReq) (buf : DynBuf) :
    Except HTTPError (Option HTTPReq × DynBuf) :=
  match indexOfSeq CRLFCRLF (buf.data.take buf.length) with
  | none =>
    if kMaxHeaderLen ≤ buf.length then
      Except.error (mkHTTPError 413 "header is too large")
    else
      Except.ok (none, buf)
  | some idx =>
    match parse (buf.data.take (idx + 4)) with
    | Except.error e => Except.error e
    | Except.ok msg => Except.ok (some msg, bufPop buf (idx + 4))

/-- An arbitrary instantiation of the missing `parseHTTPReq`, used only to
state concrete instances of framer facts that hold for every parse
function. -/
def pStub : List Nat → Except HTTPError HTTPReq :=
  fun _ => Except.error (mkHTTPError 400 "bad field")

/-! ### Connection driver loop body (src/httpServer.ts lines 141-172)

One iteration of the `while (true)` loop of `serveClient`, with the result
of the `soRead` call (when one happens) passed in as `chunk`.  The loop
body either finishes cleanly, throws, reads again (need more data), or
proceeds to dispatch a framed message. -/

inductive LoopStep where
  | finished
  | errored (e : HTTPError)
  | moreData (buf : DynBuf)
  | dispatch (msg : HTTPReq) (buf : DynBuf)
deriving DecidableEq, Repr

/-- One iteration of the `serveClient` loop: try `cutMessage`; on
need-more-data push the chunk delivered by `soRead` and test for
end-of-stream (empty chunk) with an empty or non-empty buffer. -/
def serveClientStep (parse : List Nat → Except HTTPError HTTPReq)
    (buf : DynBuf) (chunk : List Nat) : LoopStep :=
  match cutMessageHTTP parse buf with
  | Except.error e => .errored e
  | Except.ok (some msg, buf') => .dispatch msg buf'
  | Except.ok (none, buf0) =>
    let buf1 := bufPush buf0 chunk
    if chunk.length = 0 ∧ buf1.length = 0 then .finished
    else if chunk.length = 0 then .errored (mkHTTPError 400 "Unexpected EOF")
    else .moreData buf1

/-! ### Line-protocol buffer and framer (src/server.ts lines 120-142, 178-207)

The line-protocol DynBuf carries an additional `start` offset.  Its
`bufPush` is the same code as the HTTP one (it writes at offset
`buf.length` and ignores `start`). -/

structure LineBuf where
  data : List Nat
  length : Nat
  start : Nat
deriving DecidableEq, Repr

/-- `bufPush` of src/server.ts (lines 128-142), acting on the three-field
buffer. -/
def bufPushLine (buf : LineBuf) (d : List Nat) : LineBuf :=
  let newLen := buf.length + d.length
  let buf1 :=
    if buf.length < newLen then
      { buf with
        data := bufWrite (allocList (growCap newLen (max buf.data.length 32))) 0 buf.data }
    else buf
  { buf1 with data := bufWrite buf1.data buf.length d, length := newLen }

/-- `cutMessage(buf)` of src/server.ts (lines 178-207): find the first
newline in the first `buf.length` bytes; if none, signal need-more-data;
otherwise copy the message through the newline, then execute
`buf.start = idx + 1; buf.length -= (idx + 1 - buf.start);` in order (the
subtraction therefore uses the already-updated `start`), and finally shrink
the backing array when `start` exceeds half the capacity
(`buf.data.slice(buf.start, buf.start + buf.length)`). -/
def cutMessageLine (buf : LineBuf) : Option (List Nat) × LineBuf :=
  match indexOfSeq [10] (buf.data.take buf.length) with
  | none => (none, buf)
  | some idx =>
    let msg := buf.data.take (idx + 1)
    let start1 := idx + 1
    let length1 := buf.length - (idx + 1 - start1)
    let buf1 : LineBuf := { buf with start := start1, length := length1 }
    let buf2 : LineBuf :=
      if buf1.data.length < buf1.start * 2 then
        { data := (buf1.data.drop buf1.start).take buf1.length,
          length := buf1.length, start := 0 }
      else buf1
    (some msg, buf2)

/-- The bytes of "PING\n". -/
def pingBytes : List Nat :=
  [80, 73, 78, 71, 10]

/-! ### readerFromConnLength (src/httpServer.ts lines 273-305)

The reader closes over the connection, the shared DynBuf and the mutable
`remain` counter.  Its state is modelled as the unread buffer content (per
the DynBuf content lemmas below, `bufPush` appends and `bufPop` drops
content) together with the pending stream chunks; `soRead` pops the next
chunk, an exhausted stream delivering empty chunks (end-of-stream). -/

structure ConnState where
  buf : List Nat
  stream : List (List Nat)
deriving DecidableEq, Repr

/-- One `soRead`: the next pending chunk, or an empty chunk at
end-of-stream. -/
def soReadM (s : ConnState) : List Nat × ConnState :=
  match s.stream with
  | [] => ([], s)
  | c :: rest => (c, { s with stream := rest })

/-- The refill step at the head of `read`: when the buffer is empty, pull
one chunk from the stream, push it, and fail on end-of-stream. -/
def fillBuf (s : ConnState) : Except String ConnState :=
  if s.buf.length = 0 then
    let p := soReadM s
    let s2 := { p.2 with buf := p.2.buf ++ p.1 }
    if p.1.length = 0 then Except.error "Unexpected EOF from HTTP body"
    else Except.ok s2
  else Except.ok s

/-- One pull on a known-length reader with `remain` bytes outstanding:
returns the chunk delivered, the new `remain`, and the new state. -/
def readLen (remain : Nat) (s : ConnState) :
    Except String (List Nat × Nat × ConnState) :=
  if remain = 0 then Except.ok ([], 0, s)
  else
    match fillBuf s with
    | Except.error e => Except.error e
    | Except.ok s2 =>
      let consume := min s2.buf.length remain
      Except.ok (s2.buf.take consume, remain - consume,
                 { s2 with buf := s2.buf.drop consume })

/-- Pull a known-length reader until it returns an empty chunk (the drain
loop of the driver / the pull-to-exhaustion of the response writer),
collecting the non-empty chunks; `none` when the fuel runs out first. -/
def drainLen : Nat → Nat → ConnState →
    Except String (Option (List (List Nat) × ConnState))
  | 0, _, _ => Except.ok none
  | fuel + 1, remain, s =>
    match readLen remain s with
    | Except.error e => Except.error e
    | Except.ok (out, r1, s1) =>
      if out.length = 0 then Except.ok (some ([], s1))
      else
        match drainLen fuel r1 s1 with
        | Except.error e => Except.error e
        | Except.ok none => Except.ok none
        | Except.ok (some (outs, s2)) => Except.ok (some (out :: outs, s2))

/-! ### readerFromReq (src/httpServer.ts lines 238-266) -/

/-- The body reader selected by `readerFromReq`; only the known-length
variant is ever produced (the chunked and read-to-EOF branches throw 501). -/
inductive BodySel where
  | connLength (n : Nat)
deriving DecidableEq, Repr

/-- Modelled from the spec: `parseDec` is called by `readerFromReq` but is
absent from the source; per the spec the Content-Length value is parsed as
a non-negative decimal integer, malformed values being rejected (`none`
plays the role of NaN).  With the stub `fieldGet` the call is unreachable,
so no settled claim depends on this modelling. -/
def parseDec (s : List Nat) : Option Nat :=
  if s ≠ [] ∧ s.all (fun c => decide (48 ≤ c ∧ c ≤ 57)) then
    some (s.foldl (fun acc c => acc * 10 + (c - 48)) 0)
  else none

/-- `readerFromReq(conn, buf, req)`: derive the body length from the
headers (via `fieldGet`), reject a body on GET/HEAD, force the length to 0
for those methods, and select the reader variant. -/
def readerFromReq (req : HTTPReq) : Except HTTPError BodySel :=
  match (match fieldGet req.headers "Content-Length" with
         | none => Except.ok (-1 : Int)
         | some v =>
           match parseDec v with
           | none => Except.error (mkHTTPError 400 "bad Content-Length")
           | some n => Except.ok (n : Int)) with
  | Except.error e => Except.error e
  | Except.ok bodyLen0 =>
    let bodyAllowed : Bool := !(req.method == "GET" || req.method == "HEAD")
    let chunked : Bool :=
      match fieldGet req.headers "Transfer-Encoding" with
      | some v => v == latin1 "chunked"
      | none => false
    if !bodyAllowed && (decide (bodyLen0 > 0) || chunked) then
      Except.error (mkHTTPError 400 "HTTP body not allowed")
    else
      let bodyLen1 : Int := if !bodyAllowed then 0 else bodyLen0
      if bodyLen1 ≥ 0 then Except.ok (BodySel.connLength bodyLen1.toNat)
      else if chunked then Except.error (mkHTTPError 501 "TODO")
      else Except.error (mkHTTPError 501 "TODO")

/-! ### Sequences of DynBuf operations (for the buffer invariant) -/

/-- One buffer operation: an append or a consume. -/
inductive BufOp where
  | push (d : List Nat)
  | pop (n : Nat)
deriving DecidableEq, Repr

/-- Apply one operation to a DynBuf. -/
def applyOp (buf : DynBuf) : BufOp → DynBuf
  | .push d => bufPush buf d
  | .pop n => bufPop buf n

/-- Apply a sequence of operations to a DynBuf. -/
def applyOps (buf : DynBuf) (ops : List BufOp) : DynBuf :=
  ops.foldl applyOp buf

/-- The intended effect of one operation on the unread content. -/
def modelOp (c : List Nat) : BufOp → List Nat
  | .push d => c ++ d
  | .pop n => c.drop n

/-- The intended unread content after a sequence of operations. -/
def modelOps (c : List Nat) (ops : List BufOp) : List Nat :=
  ops.foldl modelOp c

/-- A sequence of operations is valid when every consume takes at most the
bytes currently unread. -/
def validOps : List Nat → List BufOp → Bool
  | _, [] => true
  | c, BufOp.push d :: rest => validOps (c ++ d) rest
  | c, BufOp.pop n :: rest => decide (n ≤ c.length) && validOps (c.drop n) rest

end WebSrv

namespace WebSrv

/-- C1: the claim says `fieldGet` returns the first header field whose name
matches the key case-insensitively, or none when no field matches.  The
source `fieldGet` is a stub returning null unconditionally: on the header
list `["Host: x"]` with key `"Host"` a case-insensitively matching field
exists (the spec-side lookup returns it), yet the code returns none. -/
theorem fieldGet_stub_contradicts_lookup :
    fieldGet [latin1 "Host: x"] "Host" = none
    ∧ fieldGetSpec [latin1 "Host: x"] "Host" = some (latin1 "Host: x")
    ∧ headerNameMatches (latin1 "Host: x") "Host" = true := by
  refine ⟨rfl, ?_, ?_⟩ <;> decide

/-- C2: the claim says that for a body reader of known non-negative length
n, `writeHTTPResp` emits a header field with the decimal rendering of n and
then writes the n body bytes without raising an error.  The code instead
throws "TODO: chunked encoding" whenever the length is non-zero (here n = 1,
body byte 120), and for n = 0 pushes the literal text of an unevaluated
template placeholder, which is not the decimal rendering "Content-Length: 0". -/
theorem writeHTTPResp_placeholder_defect :
    writeHTTPRespMem [] [120] = Except.error "TODO: chunked encoding"
    ∧ writeHTTPRespMem [] [] =
        Except.ok (["Content-Length: $\x7bresp.body.length\x7d"], [])
    ∧ ("Content-Length: $\x7bresp.body.length\x7d" : String) ≠
        "Content-Length: 0" := by
  refine ⟨rfl, rfl, ?_⟩
  decide

/-- C4: the claim says the best-effort error response written by `newConn`
for a caught HTTPError has the same status code as its response code.  The
source builds the response with `code: exc.code`, but the HTTPError class
defines `statusCode`, not `code`, so the response code is the JS value
undefined for every HTTPError — in particular not 400 for
HTTPError(400, "Unexpected EOF"). -/
theorem newConn_errorResponse_code_undefined :
    (∀ e : HTTPError, newConnErrorResponseCode e = none)
    ∧ (mkHTTPError 400 "Unexpected EOF").statusCode = 400 := by
  exact ⟨fun e => rfl, rfl⟩

/-- Helper: a run of the byte 97 contains no CRLFCRLF occurrence. -/
theorem hasSeq_crlf_replicate (n : Nat) :
    hasSeq CRLFCRLF (List.replicate n 97) = false := by
  induction n with
  | zero => rfl
  | succ k ih =>
    have hi : indexOfSeq CRLFCRLF (List.replicate k 97) = none := by
      cases hi : indexOfSeq CRLFCRLF (List.replicate k 97) with
      | none => rfl
      | some v => unfold hasSeq at ih; rw [hi] at ih; cases ih
    simp only [CRLFCRLF] at hi
    simp [hasSeq, List.replicate_succ, indexOfSeq, startsWithB, CRLFCRLF, hi]

/-- C3: on the line protocol, pushing exactly the bytes "PING\n" into the
empty per-connection buffer and cutting yields the framed message "PING\n",
but the buffer does NOT empty: its unread length stays 5, because
`cutMessage` updates `buf.start` before the `buf.length -=` arithmetic that
mentions it, so the length is decremented by zero.  (The claim, following
spec Scenario 1, says the length becomes 0.) -/
theorem lineProtocol_ping_buffer_not_emptied :
    (cutMessageLine (bufPushLine ⟨[], 0, 0⟩ pingBytes)).1 = some pingBytes
    ∧ (cutMessageLine (bufPushLine ⟨[], 0, 0⟩ pingBytes)).2.length = 5 := by
  constructor <;> decide

/-- C5: for every buffer whose scanned content has no CRLFCRLF, the HTTP
`cutMessage` throws 413 "header is too large" exactly when the buffered
length has reached 8192 bytes, and signals need-more-data (returning the
buffer untouched) when it is strictly below 8192 — for every parse
function, since the parser is only reached when a delimiter exists. -/
theorem cutMessageHTTP_header_size_boundary
    (parse : List Nat → Except HTTPError HTTPReq) (buf : DynBuf)
    (h : hasSeq CRLFCRLF (buf.data.take buf.length) = false) :
    cutMessageHTTP parse buf =
      if kMaxHeaderLen ≤ buf.length then
        Except.error (mkHTTPError 413 "header is too large")
      else
        Except.ok (none, buf) := by
  have ho : indexOfSeq CRLFCRLF (buf.data.take buf.length) = none := by
    cases hi : indexOfSeq CRLFCRLF (buf.data.take buf.length) with
    | none => rfl
    | some v => unfold hasSeq at h; rw [hi] at h; cases h
  unfold cutMessageHTTP
  rw [ho]

/-- Witness for C5 at the two boundary lengths: exactly 8192 bytes of the
byte 97 with no terminator yield the 413 error, and 8191 such bytes yield
need-more-data. -/
theorem cutMessageHTTP_header_size_boundary_witness :
    cutMessageHTTP pStub { data := List.replicate 8192 97, length := 8192 } =
      Except.error (mkHTTPError 413 "header is too large")
    ∧ cutMessageHTTP pStub { data := List.replicate 8191 97, length := 8191 } =
      Except.ok (none, { data := List.replicate 8191 97, length := 8191 }) := by
  constructor
  · have h := cutMessageHTTP_header_size_boundary pStub
      { data := List.replicate 8192 97, length := 8192 }
      (by rw [List.take_replicate]; exact hasSeq_crlf_replicate _)
    rw [h]
    norm_num [kMaxHeaderLen]
  · have h := cutMessageHTTP_header_size_boundary pStub
      { data := List.replicate 8191 97, length := 8191 }
      (by rw [List.take_replicate]; exact hasSeq_crlf_replicate _)
    rw [h]
    norm_num [kMaxHeaderLen]

/-- C6: in the message-awaiting loop of `serveClient`, when `cutMessage`
signals need-more-data and the stream read returns end-of-stream (an empty
chunk), the iteration finishes cleanly if the accumulated buffer is empty
and throws the 400 "Unexpected EOF" protocol error otherwise; in neither
case does the loop continue to another read. -/
theorem serveClient_eof_step
    (parse : List Nat → Except HTTPError HTTPReq) (buf : DynBuf)
    (h : cutMessageHTTP parse buf = Except.ok (none, buf)) :
    serveClientStep parse buf [] =
      if buf.length = 0 then LoopStep.finished
      else LoopStep.errored (mkHTTPError 400 "Unexpected EOF") := by
  unfold serveClientStep
  rw [h]
  by_cases hb : buf.length = 0 <;>
    simp [bufPush, hb]

/-- Witness for C6: an empty buffer gives a clean finish, a one-byte buffer
(no delimiter yet) gives the 400 "Unexpected EOF" error. -/
theorem serveClient_eof_step_witness :
    serveClientStep pStub ⟨[], 0⟩ [] = LoopStep.finished
    ∧ serveClientStep pStub ⟨[65], 1⟩ [] =
        LoopStep.errored (mkHTTPError 400 "Unexpected EOF") := by
  constructor
  · have h := serveClient_eof_step pStub ⟨[], 0⟩ (by rfl)
    simpa using h
  · have h := serveClient_eof_step pStub ⟨[65], 1⟩ (by rfl)
    simpa using h

/-- Helper: `soReadM` never changes the buffer component. -/
theorem soReadM_buf (s : ConnState) : (soReadM s).2.buf = s.buf := by
  cases hs : s.stream <;> simp [soReadM, hs]

/-- Helper: a successful refill leaves a non-empty buffer. -/
theorem fillBuf_pos (s s2 : ConnState) (h : fillBuf s = Except.ok s2) :
    0 < s2.buf.length := by
  unfold fillBuf at h
  by_cases hb : s.buf.length = 0
  · rw [if_pos hb] at h
    by_cases hd : (soReadM s).1.length = 0
    · rw [if_pos hd] at h; cases h
    · rw [if_neg hd] at h
      cases h
      simp [soReadM_buf]
      omega
  · rw [if_neg hb] at h
    cases h
    omega

/-- Helper: a successful pull accounts exactly for the bytes taken, and
returns an empty chunk only when nothing was outstanding. -/
theorem readLen_balance (remain : Nat) (s : ConnState) (out : List Nat)
    (r1 : Nat) (s1 : ConnState)
    (h : readLen remain s = Except.ok (out, r1, s1)) :
    out.length + r1 = remain ∧ (out.length = 0 → remain = 0) := by
  unfold readLen at h
  by_cases h0 : remain = 0
  · rw [if_pos h0] at h
    simp only [Except.ok.injEq, Prod.mk.injEq] at h
    obtain ⟨h1, h2, h3⟩ := h
    subst h1; subst h2
    simp [h0]
  · rw [if_neg h0] at h
    cases hf : fillBuf s with
    | error e => rw [hf] at h; cases h
    | ok s2 =>
      rw [hf] at h
      have hpos := fillBuf_pos s s2 hf
      simp only [Except.ok.injEq, Prod.mk.injEq] at h
      obtain ⟨h1, h2, h3⟩ := h
      subst h1; subst h2
      constructor
      · simp only [List.length_take]
        omega
      · intro hlen
        simp only [List.length_take] at hlen
        omega

/-- Helper: a pull with the whole outstanding count already buffered takes
exactly those bytes, leaves the surplus in the buffer, and does not touch
the stream. -/
theorem readLen_exact (remain : Nat) (s : ConnState)
    (h : remain ≤ s.buf.length) :
    readLen remain s =
      Except.ok (s.buf.take remain, 0, ⟨s.buf.drop remain, s.stream⟩) := by
  by_cases h0 : remain = 0
  · subst h0; rfl
  · have hb : ¬ s.buf.length = 0 := by omega
    have hf : fillBuf s = Except.ok s := by unfold fillBuf; rw [if_neg hb]
    unfold readLen
    rw [if_neg h0, hf]
    have hmin : min s.buf.length remain = remain := by omega
    simp only [hmin, Nat.sub_self]

/-- Helper: whenever the drain loop completes, the chunks it collected
total exactly the outstanding count it started from. -/
theorem drainLen_total (fuel : Nat) :
    ∀ (remain : Nat) (s : ConnState) (outs : List (List Nat)) (s1 : ConnState),
      drainLen fuel remain s = Except.ok (some (outs, s1)) →
      (outs.map List.length).sum = remain := by
  induction fuel with
  | zero =>
    intro remain s outs s1 h
    simp [drainLen] at h
  | succ k ih =>
    intro remain s outs s1 h
    unfold drainLen at h
    cases hr : readLen remain s with
    | error e => rw [hr] at h; cases h
    | ok t =>
      obtain ⟨out, r1, s2⟩ := t
      rw [hr] at h
      dsimp only at h
      have hb := readLen_balance remain s out r1 s2 hr
      by_cases ho : out.length = 0
      · rw [if_pos ho] at h
        simp only [Except.ok.injEq, Option.some.injEq, Prod.mk.injEq] at h
        obtain ⟨h1, h2⟩ := h
        subst h1
        have := hb.2 ho
        simp [this]
      · rw [if_neg ho] at h
        cases hd : drainLen k r1 s2 with
        | error e => rw [hd] at h; cases h
        | ok o =>
          rw [hd] at h
          cases o with
          | none => cases h
          | some p =>
            obtain ⟨outs2, s3⟩ := p
            simp only [Except.ok.injEq, Option.some.injEq, Prod.mk.injEq] at h
            obtain ⟨h1, h2⟩ := h
            subst h1
            have hrec := ih r1 s2 outs2 s3 hd
            simp only [List.map_cons, List.sum_cons, hrec]
            exact hb.1

/-- C7: for a known-length body reader over `remain` outstanding bytes,
(1) a pull with nothing outstanding returns an empty chunk and touches
neither the buffer nor the stream, (2) a pull never consumes past the
declared boundary: when the buffer already holds at least the outstanding
count, exactly those bytes are taken, the surplus stays buffered for the
next pipelined request and the stream is not read, and (3) pulling the
reader to exhaustion yields chunks totalling exactly the declared count. -/
theorem readerFromConnLength_boundary :
    (∀ s : ConnState, readLen 0 s = Except.ok ([], 0, s))
    ∧ (∀ (remain : Nat) (s : ConnState), remain ≤ s.buf.length →
        readLen remain s =
          Except.ok (s.buf.take remain, 0, ⟨s.buf.drop remain, s.stream⟩))
    ∧ (∀ (fuel remain : Nat) (s : ConnState) (outs : List (List Nat))
        (s1 : ConnState),
        drainLen fuel remain s = Except.ok (some (outs, s1)) →
        (outs.map List.length).sum = remain) :=
  ⟨fun _ => rfl, readLen_exact, drainLen_total⟩

/-- Witness for C7: with 2 bytes outstanding and 3 bytes buffered, one pull
returns the first 2 bytes and leaves the third in the buffer with the
stream untouched; draining from that configuration totals 2 bytes. -/
theorem readerFromConnLength_boundary_witness :
    readLen 2 ⟨[1, 2, 3], []⟩ = Except.ok ([1, 2], 0, ⟨[3], []⟩)
    ∧ ([[1, 2]].map List.length).sum = 2 := by
  constructor
  · exact readerFromConnLength_boundary.2.1 2 ⟨[1, 2, 3], []⟩ (by decide)
  · exact readerFromConnLength_boundary.2.2 3 2 ⟨[1, 2, 3], []⟩ [[1, 2]]
      ⟨[3], []⟩ (by rfl)

/-- C9: the claim says a GET or HEAD request carrying a Content-Length or a
Transfer-Encoding: chunked header is rejected with a 400-class error.  The
check for this exists in `readerFromReq`, but it tests the result of the
stub `fieldGet`, which returns null for every header list, so both requests
below are accepted with a zero-length body reader instead of an error. -/
theorem readerFromReq_nobody_check_defeated :
    readerFromReq ⟨"GET", latin1 "/", "1.1", [latin1 "Content-Length: 5"]⟩ =
      Except.ok (BodySel.connLength 0)
    ∧ readerFromReq
        ⟨"HEAD", latin1 "/", "1.1", [latin1 "Transfer-Encoding: chunked"]⟩ =
      Except.ok (BodySel.connLength 0) := by
  exact ⟨rfl, rfl⟩

/-- Helper: writing nothing changes nothing. -/
theorem bufWrite_nil (arr : List Nat) (pos : Nat) :
    bufWrite arr pos [] = arr := by
  simp [bufWrite]

/-- Helper: an in-capacity write preserves the backing length. -/
theorem bufWrite_length (arr : List Nat) (pos : Nat) (d : List Nat)
    (h : pos + d.length ≤ arr.length) :
    (bufWrite arr pos d).length = arr.length := by
  simp only [bufWrite, List.length_append, List.length_take, List.length_drop]
  omega

/-- Helper: the first `pos + d.length` bytes after an in-capacity write are
the untouched prefix followed by the written data. -/
theorem bufWrite_take (arr : List Nat) (pos : Nat) (d : List Nat)
    (h : pos + d.length ≤ arr.length) :
    (bufWrite arr pos d).take (pos + d.length) = arr.take pos ++ d := by
  have hd : d.take (arr.length - pos) = d := List.take_of_length_le (by omega)
  have hlen : (arr.take pos).length = pos := by
    simp [List.length_take]
    omega
  rw [bufWrite, hd, List.append_assoc]
  rw [show pos + d.length = (arr.take pos).length + d.length by rw [hlen]]
  rw [List.take_append]
  rw [List.take_left]

/-- Helper: copying into a fresh zero array lays the data down before the
remaining zeros. -/
theorem bufWrite_alloc (n : Nat) (d : List Nat) (h : d.length ≤ n) :
    bufWrite (allocList n) 0 d = d ++ List.replicate (n - d.length) 0 := by
  simp [bufWrite, allocList, List.take_of_length_le, h, List.drop_replicate,
        List.length_replicate]

/-- Helper: the doubling loop never shrinks the capacity. -/
theorem growCapFuel_ge_cap (fuel : Nat) :
    ∀ (newLen cap : Nat), cap ≤ growCapFuel fuel newLen cap := by
  induction fuel with
  | zero => intro newLen cap; simp [growCapFuel]
  | succ k ih =>
    intro newLen cap
    unfold growCapFuel
    by_cases hc : cap < newLen
    · rw [if_pos hc]
      calc cap ≤ cap * 2 := by omega
        _ ≤ growCapFuel k newLen (cap * 2) := ih newLen (cap * 2)
    · rw [if_neg hc]

/-- Helper: with enough fuel the doubling loop reaches the requested
length. -/
theorem growCapFuel_ge_newLen (fuel : Nat) :
    ∀ (newLen cap : Nat), 0 < cap → newLen ≤ 2 ^ fuel * cap →
      newLen ≤ growCapFuel fuel newLen cap := by
  induction fuel with
  | zero =>
    intro newLen cap _ h2
    simpa [growCapFuel] using h2
  | succ k ih =>
    intro newLen cap h1 h2
    unfold growCapFuel
    by_cases hc : cap < newLen
    · rw [if_pos hc]
      refine ih newLen (cap * 2) (by omega) ?_
      calc newLen ≤ 2 ^ (k + 1) * cap := h2
        _ = 2 ^ k * (cap * 2) := by ring
    · rw [if_neg hc]
      omega

/-- Helper: the grown capacity always covers the requested length. -/
theorem growCap_ge (newLen cap : Nat) (h : 0 < cap) :
    newLen ≤ growCap newLen cap := by
  refine growCapFuel_ge_newLen newLen newLen cap h ?_
  calc newLen ≤ 2 ^ newLen := Nat.le_of_lt (Nat.lt_two_pow newLen)
    _ ≤ 2 ^ newLen * cap := Nat.le_mul_of_pos_right _ h

/-- Helper: an append preserves the unread content followed by the new
bytes, and keeps the buffer well-formed. -/
theorem bufPush_content (buf : DynBuf) (d : List Nat) (h : buf.wf) :
    (bufPush buf d).content = buf.content ++ d ∧ (bufPush buf d).wf := by
  by_cases hd : d.length = 0
  · have hd' : d = [] := List.length_eq_zero.mp hd
    subst hd'
    constructor
    · simp [bufPush, DynBuf.content, bufWrite_nil]
    · simpa [bufPush, DynBuf.wf, bufWrite_nil] using h
  · have hcond : buf.length < buf.length + d.length := by omega
    have hcap0 : 0 < max buf.data.length 32 := by omega
    set cap := growCap (buf.length + d.length) (max buf.data.length 32) with hcapdef
    have hcap1 : max buf.data.length 32 ≤ cap := growCapFuel_ge_cap _ _ _
    have hcap2 : buf.length + d.length ≤ cap := growCap_ge _ _ hcap0
    have hDL : buf.data.length ≤ cap := le_trans (le_max_left _ _) hcap1
    have hgrown : bufWrite (allocList cap) 0 buf.data =
        buf.data ++ List.replicate (cap - buf.data.length) 0 :=
      bufWrite_alloc cap buf.data hDL
    have hgrownlen :
        (buf.data ++ List.replicate (cap - buf.data.length) 0).length = cap := by
      simp [List.length_append, List.length_replicate]
      omega
    have hpush : bufPush buf d =
        { data := bufWrite (buf.data ++ List.replicate (cap - buf.data.length) 0)
                    buf.length d,
          length := buf.length + d.length } := by
      unfold bufPush
      dsimp only
      rw [← hcapdef, if_pos hcond, hgrown]
    constructor
    · rw [hpush]
      show (bufWrite (buf.data ++ List.replicate (cap - buf.data.length) 0)
              buf.length d).take (buf.length + d.length) = buf.content ++ d
      rw [bufWrite_take _ _ _ (by rw [hgrownlen]; omega)]
      rw [List.take_append_of_le_length (by exact h)]
      rfl
    · rw [hpush]
      show buf.length + d.length ≤
        (bufWrite (buf.data ++ List.replicate (cap - buf.data.length) 0)
          buf.length d).length
      rw [bufWrite_length _ _ _ (by rw [hgrownlen]; omega), hgrownlen]
      exact hcap2

/-- Helper: a consume of at most the unread length drops exactly that
prefix of the content, and keeps the buffer well-formed. -/
theorem bufPop_content (buf : DynBuf) (len : Nat) (h : buf.wf)
    (hlen : len ≤ buf.length) :
    (bufPop buf len).content = buf.content.drop len ∧ (bufPop buf len).wf := by
  have hwf : buf.length ≤ buf.data.length := h
  have hseg : ((buf.data.drop len).take (buf.length - len)).length =
      buf.length - len := by
    simp only [List.length_take, List.length_drop]
    omega
  have hsegle : ((buf.data.drop len).take (buf.length - len)).length ≤
      buf.data.length := by
    rw [hseg]; omega
  have hdata : (bufPop buf len).data =
      (buf.data.drop len).take (buf.length - len) ++
        buf.data.drop (buf.length - len) := by
    show bufWrite buf.data 0 ((buf.data.drop len).take (buf.length - len)) = _
    unfold bufWrite
    rw [List.take_zero, List.nil_append, Nat.sub_zero, Nat.zero_add]
    rw [List.take_of_length_le hsegle, hseg]
  constructor
  · show (bufPop buf len).data.take (buf.length - len) = _
    rw [hdata]
    rw [List.take_append_of_le_length (le_of_eq hseg.symm)]
    rw [List.take_of_length_le (le_of_eq hseg)]
    show _ = (buf.data.take buf.length).drop len
    rw [List.drop_take]
  · show buf.length - len ≤ (bufPop buf len).data.length
    rw [hdata]
    simp only [List.length_append, hseg, List.length_drop]
    omega

/-- Helper: content correctness and well-formedness along any valid
sequence of operations, from any well-formed starting buffer. -/
theorem applyOps_content (ops : List BufOp) :
    ∀ (buf : DynBuf), buf.wf → validOps buf.content ops = true →
      (applyOps buf ops).content = modelOps buf.content ops
      ∧ (applyOps buf ops).wf := by
  induction ops with
  | nil => intro buf h _; exact ⟨rfl, h⟩
  | cons op rest ih =>
    intro buf h hv
    cases op with
    | push d =>
      have hp := bufPush_content buf d h
      have hv' : validOps (bufPush buf d).content rest = true := by
        rw [hp.1]; exact hv
      have := ih (bufPush buf d) hp.2 hv'
      exact ⟨by simpa [applyOps, modelOps, hp.1] using this.1,
             by simpa [applyOps] using this.2⟩
    | pop n =>
      simp only [validOps, Bool.and_eq_true, decide_eq_true_eq] at hv
      obtain ⟨hn, hv⟩ := hv
      have hn' : n ≤ buf.length := by
        have : buf.content.length = min buf.length buf.data.length := by
          simp [DynBuf.content, List.length_take]
        omega
      have hp := bufPop_content buf n h hn'
      have hv' : validOps (bufPop buf n).content rest = true := by
        rw [hp.1]; exact hv
      have := ih (bufPop buf n) hp.2 hv'
      exact ⟨by simpa [applyOps, modelOps, hp.1] using this.1,
             by simpa [applyOps] using this.2⟩

/-- C8: for every valid sequence of appends and consumes starting from the
empty per-connection buffer, the unread content after the sequence is
exactly the byte-for-byte model (each append adds its bytes at the end,
each consume removes exactly the first n bytes), and the backing capacity
is at least the logical length. -/
theorem dynBuf_append_consume (ops : List BufOp)
    (h : validOps [] ops = true) :
    (applyOps emptyDynBuf ops).content = modelOps [] ops
    ∧ (applyOps emptyDynBuf ops).length ≤ (applyOps emptyDynBuf ops).data.length := by
  have := applyOps_content ops emptyDynBuf (by simp [DynBuf.wf, emptyDynBuf])
    (by simpa [DynBuf.content, emptyDynBuf] using h)
  exact ⟨by simpa [DynBuf.content, emptyDynBuf] using this.1, this.2⟩

/-- Witness for C8: push three bytes, pop two, push one more; the unread
content is the model result [3, 4]. -/
theorem dynBuf_append_consume_witness :
    (applyOps emptyDynBuf [.push [1, 2, 3], .pop 2, .push [4]]).content =
      [3, 4] := by
  have h := dynBuf_append_consume [.push [1, 2, 3], .pop 2, .push [4]]
    (by decide)
  exact h.1.trans (by decide)

/-- C10: for every byte sequence d, the in-memory reader has declared length
d.length, its first pull returns exactly d in one chunk (moving to the done
state), and every pull in the done state returns an empty chunk leaving the
state unchanged. -/
theorem readerFromMemory_pull_spec (d : List Nat) :
    memLength (readerFromMemory d) = d.length
    ∧ memRead (readerFromMemory d) = (d, ⟨d, true⟩)
    ∧ memRead ⟨d, true⟩ = ([], ⟨d, true⟩) := by
  exact ⟨rfl, rfl, rfl⟩

end WebSrv
